import Mathlib

/-!
A shallow embedding of the metadata-recomputation and vacuum subsystem of
`QueryEngine/TableOptimizer.cpp` (omniscidb-UM).

Modelling conventions:
* Machine `int64_t` values are Lean `Int`; the `static_cast<size_t>` that the
  source applies to a COUNT result is modelled as reduction modulo 2^64
  followed by `Int.toNat` (`sizeTCast`).
* Fatal invariant checks (`CHECK`, `CHECK_EQ`) abort the whole operation;
  they are modelled as `Except.error ()`.
* `float`/`double` min/max values are only ever copied from a result row into
  `ChunkStats`, never computed with; their payloads are carried as opaque
  integer bit patterns.
* The per-fragment callbacks receive the aggregate result row for a fragment
  from the execution service; rows are inputs of the embedding, supplied by an
  environment.
-/

/-- Decidable equality for `Except`, so that concrete runs of the embedded
operations can be checked by `decide`. -/
instance {ε α : Type} [DecidableEq ε] [DecidableEq α] : DecidableEq (Except ε α) :=
  fun x y =>
    match x, y with
    | .ok a, .ok b =>
        if h : a = b then .isTrue (by rw [h]) else .isFalse (by simp [h])
    | .error a, .error b =>
        if h : a = b then .isTrue (by rw [h]) else .isFalse (by simp [h])
    | .ok _, .error _ => .isFalse (by simp)
    | .error _, .ok _ => .isFalse (by simp)

/-- SQL type tags, after `Shared/sqltypes.h`.  The tags listed in the switch of
`set_metadata_from_results` are present, together with representative types
that fall through to its `default:` case (intervals, arrays, geo, null). -/
inductive SQLTypes where
  | kBOOLEAN | kTINYINT | kSMALLINT | kINT | kBIGINT | kNUMERIC | kDECIMAL
  | kTIME | kTIMESTAMP | kDATE | kFLOAT | kDOUBLE | kVARCHAR | kCHAR | kTEXT
  | kINTERVAL_DAY_TIME | kINTERVAL_YEAR_MONTH
  | kARRAY | kPOINT | kLINESTRING | kPOLYGON | kNULLT
  deriving DecidableEq

/-- String compression encodings (only the distinction used by the source:
dictionary-encoded or not). -/
inductive EncodingType where
  | kENCODING_NONE | kENCODING_DICT | kENCODING_FIXED
  deriving DecidableEq

/-- The slice of `SQLTypeInfo` the optimizer consults: the logical type tag,
the compression, and the `is_varlen()` predicate.  `is_varlen` is carried as a
field because its definition lives outside this translation unit; the
optimizer only branches on its boolean result. -/
structure SQLTypeInfo where
  type : SQLTypes
  compression : EncodingType
  is_varlen : Bool
  deriving DecidableEq

/-- A scalar aggregate result value (`ScalarTargetValue`): an `int64_t`, a
`float` or a `double` (float payloads are opaque bit patterns here). -/
inductive ScalarTargetValue where
  | i (v : Int)
  | f (bits : Int)
  | d (bits : Int)
  deriving DecidableEq

/-- A `TargetValue`: either a scalar or one of the non-scalar alternatives
(array/geo), which the optimizer never reads successfully. -/
inductive TargetValue where
  | scalar (s : ScalarTargetValue)
  | nonscalar
  deriving DecidableEq

/-- A `Datum` as stored in `ChunkStats` min/max. -/
inductive Datum where
  | i (v : Int)
  | f (bits : Int)
  | d (bits : Int)
  deriving DecidableEq

/-- Per (fragment, column) statistics: min, max and the null flag, as filled
by `ChunkMetadata::fillChunkStats`. -/
structure ChunkStats where
  min : Datum
  max : Datum
  has_nulls : Bool
  deriving DecidableEq

/-- The zero-initialized `ChunkStats` of a `std::make_shared<ChunkMetadata>()`
(value initialization zeroes the POD members). -/
def defaultChunkStats : ChunkStats := ⟨.i 0, .i 0, false⟩

/-- Memory levels of `Data_Namespace::MemoryLevel`. -/
inductive MemoryLevel where
  | DISK_LEVEL | CPU_LEVEL | GPU_LEVEL
  deriving DecidableEq

/-- The fields of `Fragmenter_Namespace::FragmentInfo` the optimizer reads:
`fragmentId` and `getPhysicalNumTuples()`. -/
structure FragmentInfo where
  fragmentId : Int
  physicalNumTuples : Nat
  deriving DecidableEq

/-- A fragment together with the aggregate result row the execution service
hands to the per-fragment callback for it. -/
structure FragmentData where
  info : FragmentInfo
  row : List TargetValue
  deriving DecidableEq

/-- The fields of `ColumnDescriptor` the optimizer reads. -/
structure ColumnDescriptor where
  tableId : Int
  columnId : Int
  columnType : SQLTypeInfo
  isDeletedCol : Bool
  deriving DecidableEq

/-- The fields of `TableDescriptor` the optimizer reads. -/
structure TableDescriptor where
  tableId : Int
  nShards : Nat
  hasDeletedCol : Bool
  deriving DecidableEq

/-- The `static_cast<size_t>` applied to an `int64_t` count: reduce modulo
2^64 and read off the natural number. -/
def sizeTCast (v : Int) : Nat := (v % (18446744073709551616 : Int)).toNat

/-- Reading `row[n]`: past-the-end access would be undefined behaviour, which
we conservatively model as an abort. -/
def rowAt (row : List TargetValue) (n : Nat) : Except Unit TargetValue :=
  match row.get? n with
  | some tv => .ok tv
  | none => .error ()

/-- `read_scalar_target_value<int64_t>`: both `CHECK`s abort on shape or type
mismatch. -/
def read_scalar_int64 (tv : TargetValue) : Except Unit Int :=
  match tv with
  | .scalar (.i v) => .ok v
  | _ => .error ()

/-- `read_scalar_target_value<float>`. -/
def read_scalar_float (tv : TargetValue) : Except Unit Int :=
  match tv with
  | .scalar (.f v) => .ok v
  | _ => .error ()

/-- `read_scalar_target_value<double>`. -/
def read_scalar_double (tv : TargetValue) : Except Unit Int :=
  match tv with
  | .scalar (.d v) => .ok v
  | _ => .error ()

/-- Result of `set_metadata_from_results`: the function returns `false`
(`unsupported`, the `default:` case), or returns `true` — either having filled
chunk stats (`filled`) or, for a non-dictionary string, without touching them
(`notFilled`), leaving the zero-initialized stats in place.  An inner
`read_scalar_target_value` `CHECK` failure is `Except.error`. -/
inductive SetMetaResult where
  | unsupported
  | notFilled
  | filled (cs : ChunkStats)
  deriving DecidableEq

/-- Translation of `set_metadata_from_results` (TableOptimizer.cpp:42-88). -/
def set_metadata_from_results (row : List TargetValue) (ti : SQLTypeInfo)
    (has_nulls : Bool) : Except Unit SetMetaResult :=
  match ti.type with
  | .kBOOLEAN | .kTINYINT | .kSMALLINT | .kINT | .kBIGINT | .kNUMERIC
  | .kDECIMAL | .kTIME | .kTIMESTAMP | .kDATE =>
      match row.get? 0, row.get? 1 with
      | some (.scalar (.i mn)), some (.scalar (.i mx)) =>
          .ok (.filled ⟨.i mn, .i mx, has_nulls⟩)
      | _, _ => .error ()
  | .kFLOAT =>
      match row.get? 0, row.get? 1 with
      | some (.scalar (.f mn)), some (.scalar (.f mx)) =>
          .ok (.filled ⟨.f mn, .f mx, has_nulls⟩)
      | _, _ => .error ()
  | .kDOUBLE =>
      match row.get? 0, row.get? 1 with
      | some (.scalar (.d mn)), some (.scalar (.d mx)) =>
          .ok (.filled ⟨.d mn, .d mx, has_nulls⟩)
      | _, _ => .error ()
  | .kVARCHAR | .kCHAR | .kTEXT =>
      if ti.compression = .kENCODING_DICT then
        match row.get? 0, row.get? 1 with
        | some (.scalar (.i mn)), some (.scalar (.i mx)) =>
            .ok (.filled ⟨.i mn, .i mx, has_nulls⟩)
        | _, _ => .error ()
      else .ok .notFilled
  | _ => .ok .unsupported

/-- Association-list lookup keyed by `Int` (`std::unordered_map::find`). -/
def alookup {α : Type} (k : Int) : List (Int × α) → Option α
  | [] => none
  | (k', v) :: rest => if k' = k then some v else alookup k rest

/-- `std::unordered_map::emplace`: insert only when the key is absent. -/
def emplace {α : Type} (k : Int) (v : α) (m : List (Int × α)) : List (Int × α) :=
  match alookup k m with
  | some _ => m
  | none => (k, v) :: m

/-- Outcome of one per-fragment callback invocation: either the callback
returned without emplacing into `stats_map` (`skip`, the logged cases) or it
emplaced a `ChunkStats` for the fragment. -/
inductive CbOut where
  | skip
  | emit (cs : ChunkStats)
  deriving DecidableEq

/-- Translation of `compute_metadata_callback` inside `recomputeColumnMetadata`
(TableOptimizer.cpp:330-372): skip empty fragments, `CHECK_EQ` the row arity,
read the non-null COUNT, bail on an all-null chunk, derive `has_nulls` from
the live-row count (falling back to the physical count), and fill stats. -/
def compute_metadata_callback (cd : ColumnDescriptor)
    (tuple_count_map : List (Int × Nat)) (fd : FragmentData) : Except Unit CbOut :=
  if fd.info.physicalNumTuples = 0 then .ok .skip
  else if fd.row.length ≠ 3 then .error ()
  else
    match fd.row.get? 2 with
    | some (.scalar (.i count_val)) =>
        if count_val = 0 then .ok .skip
        else
          match set_metadata_from_results fd.row cd.columnType
              (match alookup fd.info.fragmentId tuple_count_map with
               | some t => decide (sizeTCast count_val ≠ t)
               | none => decide (sizeTCast count_val ≠ fd.info.physicalNumTuples)) with
          | .error e => .error e
          | .ok .unsupported => .ok .skip
          | .ok .notFilled => .ok (.emit defaultChunkStats)
          | .ok (.filled cs) => .ok (.emit cs)
    | _ => .error ()

/-- Translation of `compute_deleted_callback` inside
`recomputeDeletedColumnMetadata` (TableOptimizer.cpp:217-279), minus the
`total_num_tuples` accumulation which is threaded by the caller: skip empty
fragments, `CHECK_EQ` the row arity, read the COUNT as the fragment's live-row
count, synthesize a min/max fake row from it, and fill stats with
`has_nulls = false`.  `some (cs, n)` means both `stats_map` and
`tuple_count_map` are emplaced. -/
def compute_deleted_callback (cd : ColumnDescriptor) (fd : FragmentData) :
    Except Unit (Option (ChunkStats × Nat)) :=
  if fd.info.physicalNumTuples = 0 then .ok none
  else if fd.row.length ≠ 1 then .error ()
  else
    match fd.row.get? 0 with
    | some (.scalar (.i count_val)) =>
        let num_tuples := sizeTCast count_val
        let fakerow : List TargetValue :=
          if num_tuples = fd.info.physicalNumTuples then
            [.scalar (.i 0), .scalar (.i 0)]
          else if num_tuples = 0 then
            [.scalar (.i 1), .scalar (.i 1)]
          else
            [.scalar (.i 0), .scalar (.i 1)]
        match set_metadata_from_results fakerow cd.columnType false with
        | .error e => .error e
        | .ok .unsupported => .ok none
        | .ok .notFilled => .ok (some (defaultChunkStats, num_tuples))
        | .ok (.filled cs) => .ok (some (cs, num_tuples))
    | _ => .error ()

/-- Modelled from the spec: `Executor::executeWorkUnitPerFragment` (not under
src/) invokes the callback per fragment, "restricted to the named partitions"
when a fragment-id set is supplied; the empty set (as passed by the full
recompute) means every fragment. -/
def fragSelected (fragment_ids : List Int) (fid : Int) : Bool :=
  fragment_ids.isEmpty || fragment_ids.contains fid

/-- The fragment loop of `recomputeColumnMetadata`: run
`compute_metadata_callback` on each selected fragment, emplacing emitted stats
into `stats_map` (accumulator `acc`), aborting the pass on a `CHECK`
failure. -/
def runFragments (cd : ColumnDescriptor) (tuple_count_map : List (Int × Nat))
    (fragment_ids : List Int) (acc : List (Int × ChunkStats)) :
    List FragmentData → Except Unit (List (Int × ChunkStats))
  | [] => .ok acc
  | fd :: rest =>
      if fragSelected fragment_ids fd.info.fragmentId then
        match compute_metadata_callback cd tuple_count_map fd with
        | .error e => .error e
        | .ok .skip => runFragments cd tuple_count_map fragment_ids acc rest
        | .ok (.emit cs) =>
            runFragments cd tuple_count_map fragment_ids
              (emplace fd.info.fragmentId cs acc) rest
      else runFragments cd tuple_count_map fragment_ids acc rest

/-- One `Fragmenter::updateChunkStats(cd, stats_map, memory_level)` call as
issued by the optimizer. -/
structure UpdateCall where
  columnId : Int
  stats : List (Int × ChunkStats)
  memoryLevel : Option MemoryLevel
  deriving DecidableEq

/-- Translation of `recomputeColumnMetadata` (TableOptimizer.cpp:290-380):
skip varlen columns entirely (`none`), otherwise run the per-fragment callback
over the (possibly restricted) fragments and hand the collected `stats_map` to
`updateChunkStats` at the given memory level. -/
def recomputeColumnMetadata (cd : ColumnDescriptor)
    (tuple_count_map : List (Int × Nat)) (memory_level : Option MemoryLevel)
    (fragment_ids : List Int) (fragments : List FragmentData) :
    Except Unit (Option UpdateCall) :=
  if cd.columnType.is_varlen then .ok none
  else
    match runFragments cd tuple_count_map fragment_ids [] fragments with
    | .error e => .error e
    | .ok m => .ok (some ⟨cd.columnId, m, memory_level⟩)

/-- The fragment loop of `recomputeDeletedColumnMetadata`: the
`total_num_tuples += fragment_info.getPhysicalNumTuples()` accumulation runs
for every visited fragment of the authoritative deleted column, before the
empty-fragment skip. -/
def runDeletedFragments (cd : ColumnDescriptor)
    (stats_acc : List (Int × ChunkStats)) (tcm_acc : List (Int × Nat))
    (total : Nat) :
    List FragmentData → Except Unit (List (Int × ChunkStats) × List (Int × Nat) × Nat)
  | [] => .ok (stats_acc, tcm_acc, total)
  | fd :: rest =>
      let total' := if cd.isDeletedCol then total + fd.info.physicalNumTuples else total
      match compute_deleted_callback cd fd with
      | .error e => .error e
      | .ok none => runDeletedFragments cd stats_acc tcm_acc total' rest
      | .ok (some (cs, nt)) =>
          runDeletedFragments cd (emplace fd.info.fragmentId cs stats_acc)
            (emplace fd.info.fragmentId nt tcm_acc) total' rest

/-- What `recomputeDeletedColumnMetadata` does to the outside world: the
`updateChunkStats` call for the marker column (memory level `{}`), the
`setNumRows` argument, and the `tuple_count_map` it fills for the caller. -/
structure DeletedOut where
  call : Option UpdateCall
  numRowsCall : Option Nat
  tuple_count_map : List (Int × Nat)
  deriving DecidableEq

/-- Translation of `recomputeDeletedColumnMetadata`
(TableOptimizer.cpp:190-288): a no-op for tables without a deleted column;
otherwise run the deleted-column callback over every fragment, then call
`updateChunkStats(cd, stats_map, {})` and `setNumRows(total_num_tuples)`. -/
def recomputeDeletedColumnMetadata (td : TableDescriptor)
    (cd : ColumnDescriptor) (fragments : List FragmentData) :
    Except Unit DeletedOut :=
  if td.hasDeletedCol then
    match runDeletedFragments cd [] [] 0 fragments with
    | .error e => .error e
    | .ok (sm, tcm, total) => .ok ⟨some ⟨cd.columnId, sm, none⟩, some total, tcm⟩
  else .ok ⟨none, none, []⟩

/-- Failure causes inside `vacuumDeletedRows`: the physical delete
(`cat_.vacuumDeletedRows`) or the checkpoint (`cat_.checkpoint`). -/
inductive VacError where
  | vacuumFailed
  | checkpointFailed
  deriving DecidableEq

/-- The slice of the catalog that `TableOptimizer::vacuumDeletedRows` touches,
together with a failure oracle.  `epochs` lists the VersionToken of the table
and of every physical shard, as returned by `getTableEpochs`
(modelled from the spec: "records the current VersionToken for the table and
every physical shard"; `Catalog` is not under src/).  `checkpointFailAfter`
says how many epoch entries a failing checkpoint has already advanced when it
throws, so that a failed checkpoint can leave a partially advanced state
behind. -/
structure VacCatalog where
  epochs : List (Int × Int)
  checkpointFailAfter : Nat
  vacuumOk : Bool
  checkpointOk : Bool
  restoreOk : Bool
  deriving DecidableEq

/-- Advance the epoch of the first `n` entries (the part a failing checkpoint
got through). -/
def advanceFirst : Nat → List (Int × Int) → List (Int × Int)
  | _, [] => []
  | 0, l => l
  | n + 1, p :: rest => (p.1, p.2 + 1) :: advanceFirst n rest

/-- Modelled from the spec: `Catalog::vacuumDeletedRows` (not under src/)
physically removes soft-deleted rows; it throws on a storage failure and does
not itself move the VersionToken. -/
def catVacuumDeletedRows (c : VacCatalog) : VacCatalog × Option VacError :=
  if c.vacuumOk then (c, none) else (c, some .vacuumFailed)

/-- Modelled from the spec: `Catalog::checkpoint` (not under src/) advances
the VersionToken of the table and its shards ("advanced by checkpoint"); on
failure it throws, possibly after advancing some of them. -/
def catCheckpoint (c : VacCatalog) : VacCatalog × Option VacError :=
  if c.checkpointOk then
    ({ c with epochs := c.epochs.map (fun p => (p.1, p.2 + 1)) }, none)
  else
    ({ c with epochs := advanceFirst c.checkpointFailAfter c.epochs },
     some .checkpointFailed)

/-- Modelled from the spec: `Catalog::setTableEpochsLogExceptions` (not under
src/) restores the recorded epochs and logs — without propagating — any
secondary failure hit while restoring (on such a failure the epochs stay as
they were). -/
def setTableEpochsLogExceptions (c : VacCatalog) (saved : List (Int × Int)) :
    VacCatalog :=
  if c.restoreOk then { c with epochs := saved } else c

/-- The observable outcome of `TableOptimizer::vacuumDeletedRows`: the
error (if any) surfaced to the caller, the final catalog state, and whether
the epoch-restore compensation ran. -/
structure VacResult where
  outcome : Except VacError Unit
  cat : VacCatalog
  restoreInvoked : Bool

/-- Translation of `TableOptimizer::vacuumDeletedRows`
(TableOptimizer.cpp:382-400): record the table epochs, try the physical
delete then the checkpoint; on failure restore the recorded epochs (logging
secondary failures) and re-raise the original error; on success drop the
shard fragmenters and compact files (neither touches the epochs). -/
def vacuumDeletedRows (c : VacCatalog) : VacResult :=
  let table_epochs := c.epochs
  match catVacuumDeletedRows c with
  | (c₁, some e) => ⟨.error e, setTableEpochsLogExceptions c₁ table_epochs, true⟩
  | (c₁, none) =>
    match catCheckpoint c₁ with
    | (c₂, some e) => ⟨.error e, setTableEpochsLogExceptions c₂ table_epochs, true⟩
    | (c₂, none) => ⟨.ok (), c₂, false⟩

/-- One entry of the per-shard environment the drivers run against: the
descriptors the catalog returns for a physical table, its fragments, and the
aggregate result row the execution service produces per (column, fragment)
query. -/
structure TableEnv where
  td : TableDescriptor
  deletedCd : ColumnDescriptor
  columns : List ColumnDescriptor
  fragments : List FragmentInfo
  rowFor : Int → Int → List TargetValue

/-- The fragment/result pairs the execution service hands the per-fragment
callback when probing column `cid` of table `t`. -/
def fragsFor (t : TableEnv) (cid : Int) : List FragmentData :=
  t.fragments.map (fun fi => ⟨fi, t.rowFor cid fi.fragmentId⟩)

/-- An externally visible action of a recompute pass on the statistics store:
an `updateChunkStats` call, a `setNumRows` call, or a durable
`data_mgr.checkpoint`. -/
inductive Event where
  | updateStats (tableId : Int) (u : UpdateCall)
  | setRows (tableId : Int) (n : Nat)
  | checkpointEv (tableId : Int)
  deriving DecidableEq

/-- The statistics store: per (tableId, columnId, fragmentId) chunk stats and
a per-table total row count. -/
structure Store where
  chunkStats : Int → Int → Int → Option ChunkStats
  numRows : Int → Nat

/-- `Fragmenter::updateChunkStats`: replace the stats of exactly the fragments
present in the passed map, wholesale, for the one column. -/
def applyUpdateCall (tid : Int) (u : UpdateCall) (s : Store) : Store :=
  { s with chunkStats := fun t c f =>
      if t = tid ∧ c = u.columnId then
        match alookup f u.stats with
        | some cs => some cs
        | none => s.chunkStats t c f
      else s.chunkStats t c f }

/-- `Fragmenter::setNumRows`. -/
def applyNumRows (tid : Int) (n : Nat) (s : Store) : Store :=
  { s with numRows := fun t => if t = tid then n else s.numRows t }

/-- Apply one pass event to the store (a durable checkpoint does not change
the stored values). -/
def applyEvent (s : Store) : Event → Store
  | .updateStats tid u => applyUpdateCall tid u s
  | .setRows tid n => applyNumRows tid n s
  | .checkpointEv _ => s

/-- Apply a whole event trace in order. -/
def applyEvents (tr : List Event) (s : Store) : Store :=
  tr.foldl applyEvent s

/-- The store events of one table's deleted-column pass followed by its
per-column passes, in source order (`updateChunkStats` then `setNumRows` for
the marker, then one `updateChunkStats` per non-varlen column). -/
def tableEvents (tid : Int) (dOut : DeletedOut)
    (calls : List (Option UpdateCall)) : List Event :=
  (match dOut.call with
   | some u => [Event.updateStats tid u]
   | none => []) ++
  (match dOut.numRowsCall with
   | some n => [Event.setRows tid n]
   | none => []) ++
  calls.filterMap (fun c => c.map (Event.updateStats tid))

/-- The column loop of `recomputeMetadata`: every column of the table, full
fragment set, durable (no single memory level). -/
def runColumns (t : TableEnv) (tcm : List (Int × Nat)) :
    List ColumnDescriptor → Except Unit (List (Option UpdateCall))
  | [] => .ok []
  | cd :: rest =>
      match recomputeColumnMetadata cd tcm none [] (fragsFor t cd.columnId) with
      | .error e => .error e
      | .ok c =>
          match runColumns t tcm rest with
          | .error e => .error e
          | .ok cs => .ok (c :: cs)

/-- The event trace of the full `recomputeMetadata` pass over the resolved
physical tables: per table, the deleted-column pass, then every column, then
a durable checkpoint.  The statistics computations never read the statistics
store, so the trace is a function of the environment alone. -/
def fullTrace : List TableEnv → Except Unit (List Event)
  | [] => .ok []
  | t :: rest =>
      match recomputeDeletedColumnMetadata t.td t.deletedCd
          (fragsFor t t.deletedCd.columnId) with
      | .error e => .error e
      | .ok dOut =>
          match runColumns t dOut.tuple_count_map t.columns with
          | .error e => .error e
          | .ok calls =>
              match fullTrace rest with
              | .error e => .error e
              | .ok tr =>
                  .ok ((tableEvents t.td.tableId dOut calls ++
                        [Event.checkpointEv t.td.tableId]) ++ tr)

/-- Translation of `TableOptimizer::recomputeMetadata`
(TableOptimizer.cpp:116-162): resolve the physical tables, run the deleted
pass then every column per table, checkpoint per table, and apply every store
update in order.  Cache clearing (`clearMetaInfoCache`, `clearMemory`) does
not touch the statistics store and is not modelled. -/
def recomputeMetadata (env : List TableEnv) (s : Store) :
    Except Unit (Store × List Event) :=
  match fullTrace env with
  | .error e => .error e
  | .ok tr => .ok (applyEvents tr s, tr)

/-- `cat_.getMetadataForTable(table_id)` over the environment: dereferencing a
missing descriptor would crash, modelled as an abort. -/
def findTable (tables : List TableEnv) (tid : Int) : Except Unit TableEnv :=
  match tables with
  | [] => .error ()
  | t :: rest => if t.td.tableId = tid then .ok t else findTable rest tid

/-- The grouping key list of `columns_by_table_id`: each candidate column's
table id, first occurrences kept.  (The source iterates a `std::map`, i.e. in
sorted key order; the properties proved below do not depend on the visiting
order of tables.) -/
def tableIdsOf (cands : List (ColumnDescriptor × List Int)) : List Int :=
  (cands.map (fun p => p.1.tableId)).dedup

/-- The candidate entries belonging to one table. -/
def colsFor (cands : List (ColumnDescriptor × List Int)) (tid : Int) :
    List (ColumnDescriptor × List Int) :=
  cands.filter (fun p => p.1.tableId = tid)

/-- The column loop of `recomputeMetadataUnlocked`: each requested column is
recomputed with `MemoryLevel::CPU_LEVEL` and its requested fragment-id set.
Each produced `updateChunkStats` call is kept paired with the fragment ids it
was requested for. -/
def runColumnsSel (t : TableEnv) (tcm : List (Int × Nat)) :
    List (ColumnDescriptor × List Int) →
    Except Unit (List (UpdateCall × List Int))
  | [] => .ok []
  | (cd, fids) :: rest =>
      match recomputeColumnMetadata cd tcm (some .CPU_LEVEL) fids
          (fragsFor t cd.columnId) with
      | .error e => .error e
      | .ok c =>
          match runColumnsSel t tcm rest with
          | .error e => .error e
          | .ok cs =>
              .ok (match c with
                   | some u => (u, fids) :: cs
                   | none => cs)

/-- The per-table loop of `recomputeMetadataUnlocked`: for each table id with
candidates, run the deleted-column pass, then the requested columns.  No
checkpoint is issued.  Returns the event trace and the column calls paired
with their requested fragment ids. -/
def unlockedTables (tables : List TableEnv)
    (cands : List (ColumnDescriptor × List Int)) :
    List Int → Except Unit (List Event × List (UpdateCall × List Int))
  | [] => .ok ([], [])
  | tid :: rest =>
      match findTable tables tid with
      | .error e => .error e
      | .ok t =>
          match recomputeDeletedColumnMetadata t.td t.deletedCd
              (fragsFor t t.deletedCd.columnId) with
          | .error e => .error e
          | .ok dOut =>
              match runColumnsSel t dOut.tuple_count_map (colsFor cands tid) with
              | .error e => .error e
              | .ok cc =>
                  match unlockedTables tables cands rest with
                  | .error e => .error e
                  | .ok (tr, ccs) =>
                      .ok (tableEvents tid dOut (cc.map (fun p => some p.1)) ++ tr,
                           cc ++ ccs)

/-- Translation of `TableOptimizer::recomputeMetadataUnlocked`
(TableOptimizer.cpp:164-185): group the candidate columns by table id, run
the deleted pass per table, then recompute exactly the candidate columns at
`CPU_LEVEL` restricted to their fragment ids, and apply the updates — with no
durable checkpoint. -/
def recomputeMetadataUnlocked (tables : List TableEnv)
    (cands : List (ColumnDescriptor × List Int)) (s : Store) :
    Except Unit (Store × List Event × List (UpdateCall × List Int)) :=
  match unlockedTables tables cands (tableIdsOf cands) with
  | .error e => .error e
  | .ok (tr, cc) => .ok (applyEvents tr s, tr, cc)

/-- The integer-class branch of the `set_metadata_from_results` switch
(boolean/integral/decimal/temporal types). -/
def intClass (t : SQLTypes) : Bool :=
  match t with
  | .kBOOLEAN | .kTINYINT | .kSMALLINT | .kINT | .kBIGINT | .kNUMERIC
  | .kDECIMAL | .kTIME | .kTIMESTAMP | .kDATE => true
  | _ => false

/-- Whether a type tag is handled by any case of the
`set_metadata_from_results` switch (everything else hits `default:`). -/
def inSwitch (t : SQLTypes) : Bool :=
  intClass t ||
    (match t with
     | .kFLOAT | .kDOUBLE | .kVARCHAR | .kCHAR | .kTEXT => true
     | _ => false)

/-- A result row the column-pass callback can consume without tripping a
`CHECK`: the fragment is empty (skipped before the row is read), or the row
has the three aggregate targets with an `int64_t` COUNT in slot 2. -/
def rowShapeOk (fd : FragmentData) : Prop :=
  fd.info.physicalNumTuples = 0 ∨
    (fd.row.length = 3 ∧ ∃ c : Int, fd.row.get? 2 = some (.scalar (.i c)))

/-- Witness fixtures: a plain integer column type. -/
def tiIntW : SQLTypeInfo := ⟨.kINT, .kENCODING_NONE, false⟩

/-- Witness fixtures: the boolean type of the soft-delete marker column. -/
def tiBoolW : SQLTypeInfo := ⟨.kBOOLEAN, .kENCODING_NONE, false⟩

/-- Witness fixtures: a non-varlen type that falls into the `default:` case of
the switch (a day-time interval). -/
def tiIntervalW : SQLTypeInfo := ⟨.kINTERVAL_DAY_TIME, .kENCODING_NONE, false⟩

/-- Witness fixtures: a varlen array type. -/
def tiArrayW : SQLTypeInfo := ⟨.kARRAY, .kENCODING_NONE, true⟩

/-- Witness fixtures: an ordinary integer column of table 1. -/
def cdIntW : ColumnDescriptor := ⟨1, 7, tiIntW, false⟩

/-- Witness fixtures: the soft-delete marker column of table 1. -/
def cdDelW : ColumnDescriptor := ⟨1, 2, tiBoolW, true⟩

/-- Witness fixtures: an interval column of table 1 (statistics-ineligible,
not varlen). -/
def cdIntervalW : ColumnDescriptor := ⟨1, 8, tiIntervalW, false⟩

/-- Witness fixtures: a table with a soft-delete column and no shards. -/
def tdW : TableDescriptor := ⟨1, 0, true⟩

/-- Witness fixtures: the empty statistics store. -/
def storeEmpty : Store := ⟨fun _ _ _ => none, fun _ => 0⟩

/-- Witness fixtures: a one-table environment — 10 physical rows in one
fragment, 7 of them live, an integer column whose MIN/MAX/COUNT probe yields
(1, 5, 7). -/
def envW : List TableEnv :=
  [⟨tdW, cdDelW, [cdIntW], [⟨1, 10⟩],
    fun c _ =>
      if c = 2 then [.scalar (.i 7)]
      else [.scalar (.i 1), .scalar (.i 5), .scalar (.i 7)]⟩]

/-- Witness fixtures: the event trace the full recompute produces on `envW`
(marker stats (0,1), total rows 10, column stats (1,5) with no nulls since
COUNT 7 equals the live count 7, then the durable checkpoint). -/
def traceW : List Event :=
  [.updateStats 1 ⟨2, [(1, ⟨.i 0, .i 1, false⟩)], none⟩,
   .setRows 1 10,
   .updateStats 1 ⟨7, [(1, ⟨.i 1, .i 5, false⟩)], none⟩,
   .checkpointEv 1]

/-- The chunk-stats write a single event performs at a store key, if any. -/
def evChunk : Event → Int → Int → Int → Option ChunkStats
  | .updateStats tid u, t, c, f =>
      if t = tid ∧ c = u.columnId then alookup f u.stats else none
  | _, _, _, _ => none

/-- The row-count write a single event performs for a table, if any. -/
def evRows : Event → Int → Option Nat
  | .setRows tid n, t => if t = tid then some n else none
  | _, _ => none

/-- The last chunk-stats write a trace performs at a store key, if any. -/
def traceChunk : List Event → Int → Int → Int → Option ChunkStats
  | [], _, _, _ => none
  | e :: rest, t, c, f =>
      match traceChunk rest t c f with
      | some v => some v
      | none => evChunk e t c f

/-- The last row-count write a trace performs for a table, if any. -/
def traceRows : List Event → Int → Option Nat
  | [], _ => none
  | e :: rest, t =>
      match traceRows rest t with
      | some v => some v
      | none => evRows e t

/-- Witness fixtures: the event trace the targeted recompute of column 7 restricted to fragment 1 produces on `envW` (the marker pass, then the one requested column at `CPU_LEVEL`; no checkpoint). -/
def trUW : List Event :=
  [.updateStats 1 ⟨2, [(1, ⟨.i 0, .i 1, false⟩)], none⟩,
   .setRows 1 10,
   .updateStats 1 ⟨7, [(1, ⟨.i 1, .i 5, false⟩)], some .CPU_LEVEL⟩]

/-- Witness fixtures: the column calls of that targeted recompute. -/
def ccUW : List (UpdateCall × List Int) :=
  [(⟨7, [(1, ⟨.i 1, .i 5, false⟩)], some .CPU_LEVEL⟩, [1])]

theorem alookup_emplace_ne {α : Type} (k fid : Int) (v : α) (m : List (Int × α))
    (h : k ≠ fid) : alookup fid (emplace k v m) = alookup fid m := by
  unfold emplace
  cases halk : alookup k m with
  | some _ => rfl
  | none => simp [alookup, h]

theorem alookup_emplace_self {α : Type} (k : Int) (v : α) (m : List (Int × α))
    (h : alookup k m = none) : alookup k (emplace k v m) = some v := by
  unfold emplace
  rw [h]
  simp [alookup]

theorem mem_emplace {α : Type} (k : Int) (v : α) (m : List (Int × α))
    (p : Int × α) (h : p ∈ emplace k v m) : p = (k, v) ∨ p ∈ m := by
  unfold emplace at h
  cases halk : alookup k m with
  | some w => rw [halk] at h; exact Or.inr h
  | none => rw [halk] at h; rcases List.mem_cons.mp h with h1 | h2
            · exact Or.inl h1
            · exact Or.inr h2

theorem sizeTCast_of_bounds (v : Int) (h0 : 0 ≤ v)
    (h64 : v < 18446744073709551616) : sizeTCast v = v.toNat := by
  unfold sizeTCast
  omega

theorem set_metadata_int_filled (ti : SQLTypeInfo) (hint : intClass ti.type = true)
    (mn mx : Int) (rest : List TargetValue) (hn : Bool) :
    set_metadata_from_results
        (.scalar (.i mn) :: .scalar (.i mx) :: rest) ti hn =
      .ok (.filled ⟨.i mn, .i mx, hn⟩) := by
  unfold set_metadata_from_results
  cases hty : ti.type <;> simp [intClass, hty] at hint ⊢

theorem set_metadata_unsupported (ti : SQLTypeInfo) (row : List TargetValue)
    (hn : Bool) (h : inSwitch ti.type = false) :
    set_metadata_from_results row ti hn = .ok .unsupported := by
  unfold set_metadata_from_results
  cases hty : ti.type <;> simp [inSwitch, intClass, hty] at h ⊢

theorem set_metadata_false_filled (ti : SQLTypeInfo) (row : List TargetValue)
    (cs : ChunkStats)
    (h : set_metadata_from_results row ti false = .ok (.filled cs)) :
    cs.has_nulls = false := by
  obtain ⟨mnv, mxv, hnv⟩ := cs
  unfold set_metadata_from_results at h
  cases hty : ti.type <;> rw [hty] at h <;>
    (try split at h) <;> (try split at h) <;> (try split at h) <;> simp_all

theorem cb_emit_int (cd : ColumnDescriptor) (tcm : List (Int × Nat))
    (info : FragmentInfo) (mn mx cnt : Int)
    (hphys : info.physicalNumTuples ≠ 0)
    (hint : intClass cd.columnType.type = true)
    (hcnt0 : 0 < cnt) (hcnt64 : cnt < 18446744073709551616) :
    compute_metadata_callback cd tcm
        ⟨info, [.scalar (.i mn), .scalar (.i mx), .scalar (.i cnt)]⟩ =
      .ok (.emit ⟨.i mn, .i mx,
        decide (cnt.toNat ≠
          (alookup info.fragmentId tcm).getD info.physicalNumTuples)⟩) := by
  have hcast : sizeTCast cnt = cnt.toNat :=
    sizeTCast_of_bounds cnt (le_of_lt hcnt0) hcnt64
  have hne : cnt ≠ 0 := by omega
  cases halk : alookup info.fragmentId tcm with
  | some t =>
      unfold compute_metadata_callback
      simp [hphys, hne, halk, hcast, set_metadata_int_filled cd.columnType hint]
  | none =>
      unfold compute_metadata_callback
      simp [hphys, hne, halk, hcast, set_metadata_int_filled cd.columnType hint]

theorem cb_skip_zero_count (cd : ColumnDescriptor) (tcm : List (Int × Nat))
    (fd : FragmentData)
    (h : fd.info.physicalNumTuples = 0 ∨
      (fd.row.length = 3 ∧ fd.row.get? 2 = some (.scalar (.i 0)))) :
    compute_metadata_callback cd tcm fd = .ok .skip := by
  rcases h with h0 | ⟨hlen, hget⟩
  · unfold compute_metadata_callback
    rw [if_pos h0]
  · unfold compute_metadata_callback
    by_cases hp : fd.info.physicalNumTuples = 0
    · rw [if_pos hp]
    · rw [if_neg hp, if_neg (by simp [hlen]), hget]
      simp

theorem cb_skip_unsupported (cd : ColumnDescriptor) (tcm : List (Int × Nat))
    (fd : FragmentData) (hun : inSwitch cd.columnType.type = false)
    (hshape : rowShapeOk fd) :
    compute_metadata_callback cd tcm fd = .ok .skip := by
  rcases hshape with h0 | ⟨hlen, c, hget⟩
  · unfold compute_metadata_callback
    rw [if_pos h0]
  · unfold compute_metadata_callback
    by_cases hp : fd.info.physicalNumTuples = 0
    · rw [if_pos hp]
    · rw [if_neg hp, if_neg (by simp [hlen]), hget]
      by_cases hc : c = 0
      · subst hc; simp
      · simp [hc, set_metadata_unsupported cd.columnType fd.row, hun]

theorem cb_error_malformed (cd : ColumnDescriptor) (tcm : List (Int × Nat))
    (fd : FragmentData) (hphys : fd.info.physicalNumTuples ≠ 0)
    (h : fd.row.length ≠ 3 ∨
      ∃ tv, fd.row.get? 2 = some tv ∧ ∀ v : Int, tv ≠ .scalar (.i v)) :
    compute_metadata_callback cd tcm fd = .error () := by
  rcases h with hlen | ⟨tv, hget, htv⟩
  · unfold compute_metadata_callback
    rw [if_neg hphys, if_pos hlen]
  · unfold compute_metadata_callback
    by_cases hlen : fd.row.length = 3
    · rw [if_neg hphys, if_neg (by simp [hlen]), hget]
      cases tv with
      | scalar s =>
          cases s with
          | i v => exact absurd rfl (htv v)
          | f v => rfl
          | d v => rfl
      | nonscalar => rfl
    · rw [if_neg hphys, if_pos hlen]

theorem runFragments_preserve (cd : ColumnDescriptor) (tcm : List (Int × Nat))
    (fids : List Int) (frags : List FragmentData)
    (acc m : List (Int × ChunkStats)) (fid : Int)
    (hnot : fid ∉ frags.map (fun g => g.info.fragmentId))
    (h : runFragments cd tcm fids acc frags = .ok m) :
    alookup fid m = alookup fid acc := by
  induction frags generalizing acc with
  | nil =>
      unfold runFragments at h
      cases h
      rfl
  | cons g rest ih =>
      simp only [List.map_cons, List.mem_cons, not_or] at hnot
      obtain ⟨hg, hrest⟩ := hnot
      unfold runFragments at h
      by_cases hsel : fragSelected fids g.info.fragmentId = true
      · rw [if_pos hsel] at h
        cases hcb : compute_metadata_callback cd tcm g with
        | error e => rw [hcb] at h; exact absurd h (by simp)
        | ok o =>
            rw [hcb] at h
            cases o with
            | skip => exact ih _ (by simpa using hrest) h
            | emit cs =>
                rw [ih _ (by simpa using hrest) h]
                exact alookup_emplace_ne _ _ _ _ (fun he => hg he.symm)
      · rw [if_neg (by simpa using hsel)] at h
        exact ih _ (by simpa using hrest) h

theorem runFragments_lookup_emit (cd : ColumnDescriptor) (tcm : List (Int × Nat))
    (fids : List Int) (frags : List FragmentData)
    (acc m : List (Int × ChunkStats)) (fd : FragmentData) (cs : ChunkStats)
    (hmem : fd ∈ frags)
    (hnodup : (frags.map (fun g => g.info.fragmentId)).Nodup)
    (hsel : fragSelected fids fd.info.fragmentId = true)
    (hcb : compute_metadata_callback cd tcm fd = .ok (.emit cs))
    (hacc : alookup fd.info.fragmentId acc = none)
    (h : runFragments cd tcm fids acc frags = .ok m) :
    alookup fd.info.fragmentId m = some cs := by
  induction frags generalizing acc with
  | nil => cases hmem
  | cons g rest ih =>
      rw [List.map_cons, List.nodup_cons] at hnodup
      obtain ⟨hghd, hndrest⟩ := hnodup
      rcases List.mem_cons.mp hmem with heq | hmemr
      · subst heq
        unfold runFragments at h
        rw [if_pos hsel, hcb] at h
        rw [runFragments_preserve cd tcm fids rest _ m fd.info.fragmentId hghd h]
        exact alookup_emplace_self _ _ _ hacc
      · have hidmem : fd.info.fragmentId ∈ rest.map (fun g => g.info.fragmentId) :=
          List.mem_map.mpr ⟨fd, hmemr, rfl⟩
        have hne : g.info.fragmentId ≠ fd.info.fragmentId := by
          intro he; exact hghd (he ▸ hidmem)
        unfold runFragments at h
        by_cases hselg : fragSelected fids g.info.fragmentId = true
        · rw [if_pos hselg] at h
          cases hcbg : compute_metadata_callback cd tcm g with
          | error e => rw [hcbg] at h; exact absurd h (by simp)
          | ok o =>
              rw [hcbg] at h
              cases o with
              | skip => exact ih _ hmemr hndrest hacc h
              | emit cs' =>
                  refine ih _ hmemr hndrest ?_ h
                  rw [alookup_emplace_ne _ _ _ _ hne]
                  exact hacc
        · rw [if_neg (by simpa using hselg)] at h
          exact ih _ hmemr hndrest hacc h

theorem runFragments_lookup_skip (cd : ColumnDescriptor) (tcm : List (Int × Nat))
    (fids : List Int) (frags : List FragmentData)
    (acc m : List (Int × ChunkStats)) (fd : FragmentData)
    (hmem : fd ∈ frags)
    (hnodup : (frags.map (fun g => g.info.fragmentId)).Nodup)
    (hcb : compute_metadata_callback cd tcm fd = .ok .skip)
    (h : runFragments cd tcm fids acc frags = .ok m) :
    alookup fd.info.fragmentId m = alookup fd.info.fragmentId acc := by
  induction frags generalizing acc with
  | nil => cases hmem
  | cons g rest ih =>
      rw [List.map_cons, List.nodup_cons] at hnodup
      obtain ⟨hghd, hndrest⟩ := hnodup
      rcases List.mem_cons.mp hmem with heq | hmemr
      · subst heq
        unfold runFragments at h
        by_cases hselg : fragSelected fids fd.info.fragmentId = true
        · rw [if_pos hselg, hcb] at h
          exact runFragments_preserve cd tcm fids rest _ m fd.info.fragmentId hghd h
        · rw [if_neg (by simpa using hselg)] at h
          exact runFragments_preserve cd tcm fids rest _ m fd.info.fragmentId hghd h
      · have hidmem : fd.info.fragmentId ∈ rest.map (fun g => g.info.fragmentId) :=
          List.mem_map.mpr ⟨fd, hmemr, rfl⟩
        have hne : g.info.fragmentId ≠ fd.info.fragmentId := by
          intro he; exact hghd (he ▸ hidmem)
        unfold runFragments at h
        by_cases hselg : fragSelected fids g.info.fragmentId = true
        · rw [if_pos hselg] at h
          cases hcbg : compute_metadata_callback cd tcm g with
          | error e => rw [hcbg] at h; exact absurd h (by simp)
          | ok o =>
              rw [hcbg] at h
              cases o with
              | skip => exact ih _ hmemr hndrest h
              | emit cs' =>
                  rw [ih _ hmemr hndrest h]
                  exact alookup_emplace_ne _ _ _ _ hne
        · rw [if_neg (by simpa using hselg)] at h
          exact ih _ hmemr hndrest h

theorem runFragments_error_mem (cd : ColumnDescriptor) (tcm : List (Int × Nat))
    (fids : List Int) (frags : List FragmentData)
    (acc : List (Int × ChunkStats)) (fd : FragmentData)
    (hmem : fd ∈ frags)
    (hsel : fragSelected fids fd.info.fragmentId = true)
    (hcb : compute_metadata_callback cd tcm fd = .error ()) :
    runFragments cd tcm fids acc frags = .error () := by
  induction frags generalizing acc with
  | nil => cases hmem
  | cons g rest ih =>
      rcases List.mem_cons.mp hmem with heq | hmemr
      · subst heq
        unfold runFragments
        rw [if_pos hsel, hcb]
      · unfold runFragments
        by_cases hselg : fragSelected fids g.info.fragmentId = true
        · rw [if_pos hselg]
          cases hcbg : compute_metadata_callback cd tcm g with
          | error e => cases e; rfl
          | ok o =>
              cases o with
              | skip => exact ih _ hmemr
              | emit cs' => exact ih _ hmemr
        · rw [if_neg (by simpa using hselg)]
          exact ih _ hmemr

theorem runFragments_all_skip (cd : ColumnDescriptor) (tcm : List (Int × Nat))
    (fids : List Int) (frags : List FragmentData)
    (acc : List (Int × ChunkStats))
    (hall : ∀ g ∈ frags, fragSelected fids g.info.fragmentId = true →
      compute_metadata_callback cd tcm g = .ok .skip) :
    runFragments cd tcm fids acc frags = .ok acc := by
  induction frags generalizing acc with
  | nil => rfl
  | cons g rest ih =>
      unfold runFragments
      by_cases hselg : fragSelected fids g.info.fragmentId = true
      · rw [if_pos hselg, hall g (List.mem_cons_self g rest) hselg]
        exact ih _ (fun g' hg' => hall g' (List.mem_cons_of_mem g hg'))
      · rw [if_neg (by simpa using hselg)]
        exact ih _ (fun g' hg' => hall g' (List.mem_cons_of_mem g hg'))

theorem runFragments_keys (cd : ColumnDescriptor) (tcm : List (Int × Nat))
    (fids : List Int) (frags : List FragmentData)
    (acc m : List (Int × ChunkStats)) (hne : fids ≠ [])
    (h : runFragments cd tcm fids acc frags = .ok m)
    (p : Int × ChunkStats) (hp : p ∈ m) : p.1 ∈ fids ∨ p ∈ acc := by
  induction frags generalizing acc with
  | nil =>
      unfold runFragments at h
      cases h
      exact Or.inr hp
  | cons g rest ih =>
      unfold runFragments at h
      by_cases hselg : fragSelected fids g.info.fragmentId = true
      · rw [if_pos hselg] at h
        cases hcbg : compute_metadata_callback cd tcm g with
        | error e => rw [hcbg] at h; exact absurd h (by simp)
        | ok o =>
            rw [hcbg] at h
            cases o with
            | skip => exact ih _ h
            | emit cs' =>
                rcases ih _ h with hin | hacc
                · exact Or.inl hin
                · rcases mem_emplace _ _ _ _ hacc with hpe | hpa
                  · subst hpe
                    left
                    have : fids.contains g.info.fragmentId = true := by
                      unfold fragSelected at hselg
                      simpa [List.isEmpty_iff, hne] using hselg
                    simpa using this
                  · exact Or.inr hpa
      · rw [if_neg (by simpa using hselg)] at h
        exact ih _ h

theorem deleted_cb_false (cd : ColumnDescriptor) (fd : FragmentData)
    (cs : ChunkStats) (nt : Nat)
    (h : compute_deleted_callback cd fd = .ok (some (cs, nt))) :
    cs.has_nulls = false := by
  unfold compute_deleted_callback at h
  split at h
  · simp at h
  · split at h
    · simp at h
    · split at h
      · dsimp only at h
        split at h
        · exact absurd h (by simp)
        · exact absurd h (by simp)
        · rw [Except.ok.injEq, Option.some.injEq, Prod.mk.injEq] at h
          obtain ⟨hcs, -⟩ := h
          rw [← hcs]
          rfl
        · rw [Except.ok.injEq, Option.some.injEq, Prod.mk.injEq] at h
          obtain ⟨hcs, -⟩ := h
          subst hcs
          exact set_metadata_false_filled _ _ _ (by assumption)
      · simp at h

theorem runDeleted_total (cd : ColumnDescriptor)
    (sa : List (Int × ChunkStats)) (ta : List (Int × Nat)) (total : Nat)
    (frags : List FragmentData) (sm : List (Int × ChunkStats))
    (tm : List (Int × Nat)) (tot : Nat)
    (hdel : cd.isDeletedCol = true)
    (h : runDeletedFragments cd sa ta total frags = .ok (sm, tm, tot)) :
    tot = total + (frags.map (fun g => g.info.physicalNumTuples)).sum := by
  induction frags generalizing sa ta total with
  | nil =>
      unfold runDeletedFragments at h
      cases h
      simp
  | cons g rest ih =>
      unfold runDeletedFragments at h
      rw [hdel] at h
      simp only [if_true] at h
      cases hcb : compute_deleted_callback cd g with
      | error e => rw [hcb] at h; exact absurd h (by simp)
      | ok o =>
          rw [hcb] at h
          cases o with
          | none =>
              rw [ih _ _ _ h]
              simp [Nat.add_assoc]
          | some p =>
              obtain ⟨cs, nt⟩ := p
              rw [ih _ _ _ h]
              simp [Nat.add_assoc]

theorem runDeleted_has_nulls (cd : ColumnDescriptor)
    (sa : List (Int × ChunkStats)) (ta : List (Int × Nat)) (total : Nat)
    (frags : List FragmentData) (sm : List (Int × ChunkStats))
    (tm : List (Int × Nat)) (tot : Nat)
    (hinv : ∀ p ∈ sa, (p : Int × ChunkStats).2.has_nulls = false)
    (h : runDeletedFragments cd sa ta total frags = .ok (sm, tm, tot)) :
    ∀ p ∈ sm, (p : Int × ChunkStats).2.has_nulls = false := by
  induction frags generalizing sa ta total with
  | nil =>
      unfold runDeletedFragments at h
      cases h
      exact hinv
  | cons g rest ih =>
      unfold runDeletedFragments at h
      cases hcb : compute_deleted_callback cd g with
      | error e => rw [hcb] at h; exact absurd h (by simp)
      | ok o =>
          rw [hcb] at h
          cases o with
          | none => exact ih _ _ _ hinv h
          | some p =>
              obtain ⟨cs, nt⟩ := p
              refine ih _ _ _ ?_ h
              intro q hq
              rcases mem_emplace _ _ _ _ hq with hqe | hqa
              · subst hqe
                exact deleted_cb_false cd g cs nt hcb
              · exact hinv q hqa

theorem deleted_cb_cases (cd : ColumnDescriptor) (info : FragmentInfo) (L : Int)
    (hbool : intClass cd.columnType.type = true)
    (hphys : info.physicalNumTuples ≠ 0)
    (hL0 : 0 ≤ L) (hL64 : L < 18446744073709551616) :
    compute_deleted_callback cd ⟨info, [.scalar (.i L)]⟩ =
      .ok (some
        (⟨.i (if L.toNat = info.physicalNumTuples then 0
              else if L.toNat = 0 then 1 else 0),
          .i (if L.toNat = info.physicalNumTuples then 0
              else if L.toNat = 0 then 1 else 1), false⟩, L.toNat)) := by
  have hcast : sizeTCast L = L.toNat := sizeTCast_of_bounds L hL0 hL64
  unfold compute_deleted_callback
  rw [if_neg hphys, if_neg (by simp)]
  by_cases h1 : L.toNat = info.physicalNumTuples
  · simp [hcast, h1, set_metadata_int_filled cd.columnType hbool]
  · by_cases h2 : L.toNat = 0
    · have h1' : ¬((0 : Nat) = info.physicalNumTuples) := by
        rw [← h2]; exact h1
      simp [hcast, h1', h2, set_metadata_int_filled cd.columnType hbool]
    · simp [hcast, h1, h2, set_metadata_int_filled cd.columnType hbool]

theorem recomputeColumn_keys (cd : ColumnDescriptor)
    (tcm : List (Int × Nat)) (ml : Option MemoryLevel) (fids : List Int)
    (frags : List FragmentData) (u : UpdateCall) (hne : fids ≠ [])
    (h : recomputeColumnMetadata cd tcm ml fids frags = .ok (some u))
    (p : Int × ChunkStats) (hp : p ∈ u.stats) : p.1 ∈ fids := by
  unfold recomputeColumnMetadata at h
  by_cases hv : cd.columnType.is_varlen = true
  · rw [if_pos hv] at h; exact absurd h (by simp)
  · rw [if_neg (by simpa using hv)] at h
    cases hm : runFragments cd tcm fids [] frags with
    | error e => rw [hm] at h; exact absurd h (by simp)
    | ok m =>
        rw [hm] at h
        rw [Except.ok.injEq, Option.some.injEq] at h
        subst h
        rcases runFragments_keys cd tcm fids frags [] m hne hm p hp with hin | hacc
        · exact hin
        · cases hacc

theorem recomputeColumn_shape (cd : ColumnDescriptor)
    (tcm : List (Int × Nat)) (ml : Option MemoryLevel) (fids : List Int)
    (frags : List FragmentData) (u : UpdateCall)
    (h : recomputeColumnMetadata cd tcm ml fids frags = .ok (some u)) :
    u.columnId = cd.columnId ∧ u.memoryLevel = ml := by
  unfold recomputeColumnMetadata at h
  by_cases hv : cd.columnType.is_varlen = true
  · rw [if_pos hv] at h; exact absurd h (by simp)
  · rw [if_neg (by simpa using hv)] at h
    cases hm : runFragments cd tcm fids [] frags with
    | error e => rw [hm] at h; exact absurd h (by simp)
    | ok m =>
        rw [hm] at h
        rw [Except.ok.injEq, Option.some.injEq] at h
        subst h
        exact ⟨rfl, rfl⟩

theorem applyEvent_chunk (e : Event) (s : Store) (t c f : Int) :
    (applyEvent s e).chunkStats t c f =
      match evChunk e t c f with
      | some v => some v
      | none => s.chunkStats t c f := by
  cases e with
  | updateStats tid u =>
      by_cases hc : t = tid ∧ c = u.columnId
      · simp only [applyEvent, applyUpdateCall, evChunk, if_pos hc]
      · simp only [applyEvent, applyUpdateCall, evChunk, if_neg hc]
  | setRows tid n => rfl
  | checkpointEv tid => rfl

theorem applyEvent_rows (e : Event) (s : Store) (t : Int) :
    (applyEvent s e).numRows t =
      match evRows e t with
      | some v => v
      | none => s.numRows t := by
  cases e with
  | updateStats tid u => rfl
  | setRows tid n =>
      simp only [applyEvent, applyNumRows, evRows]
      by_cases hc : t = tid
      · rw [if_pos hc, if_pos hc]
      · rw [if_neg hc, if_neg hc]
  | checkpointEv tid => rfl

theorem applyEvents_chunk (tr : List Event) (s : Store) (t c f : Int) :
    (applyEvents tr s).chunkStats t c f =
      match traceChunk tr t c f with
      | some v => some v
      | none => s.chunkStats t c f := by
  induction tr generalizing s with
  | nil => rfl
  | cons e rest ih =>
      show (applyEvents rest (applyEvent s e)).chunkStats t c f = _
      rw [ih (applyEvent s e)]
      cases h1 : traceChunk rest t c f with
      | some v => simp [traceChunk, h1]
      | none =>
          simp only [traceChunk, h1]
          rw [applyEvent_chunk]

theorem applyEvents_rows (tr : List Event) (s : Store) (t : Int) :
    (applyEvents tr s).numRows t =
      match traceRows tr t with
      | some v => v
      | none => s.numRows t := by
  induction tr generalizing s with
  | nil => rfl
  | cons e rest ih =>
      show (applyEvents rest (applyEvent s e)).numRows t = _
      rw [ih (applyEvent s e)]
      cases h1 : traceRows rest t with
      | some v => simp [traceRows, h1]
      | none =>
          simp only [traceRows, h1]
          rw [applyEvent_rows]

theorem store_eq_of_fields (s₁ s₂ : Store)
    (h1 : s₁.chunkStats = s₂.chunkStats) (h2 : s₁.numRows = s₂.numRows) :
    s₁ = s₂ := by
  cases s₁
  cases s₂
  simp_all

theorem applyEvents_idem (tr : List Event) (s : Store) :
    applyEvents tr (applyEvents tr s) = applyEvents tr s := by
  apply store_eq_of_fields
  · funext t c f
    rw [applyEvents_chunk, applyEvents_chunk]
    cases h : traceChunk tr t c f <;> rfl
  · funext t
    rw [applyEvents_rows, applyEvents_rows]
    cases h : traceRows tr t <;> rfl

theorem deletedOut_call_level (td : TableDescriptor) (cd : ColumnDescriptor)
    (frags : List FragmentData) (out : DeletedOut) (u : UpdateCall)
    (h : recomputeDeletedColumnMetadata td cd frags = .ok out)
    (hu : out.call = some u) : u.memoryLevel = none := by
  unfold recomputeDeletedColumnMetadata at h
  by_cases hd : td.hasDeletedCol = true
  · rw [if_pos hd] at h
    cases hr : runDeletedFragments cd [] [] 0 frags with
    | error e => rw [hr] at h; exact absurd h (by simp)
    | ok trip =>
        obtain ⟨sm, tm, tot⟩ := trip
        rw [hr] at h
        rw [Except.ok.injEq] at h
        subst h
        simp only [Option.some.injEq] at hu
        subst hu
        rfl
  · rw [if_neg hd] at h
    rw [Except.ok.injEq] at h
    subst h
    exact absurd hu (by simp)

theorem runColumnsSel_spec (t : TableEnv) (tcm : List (Int × Nat))
    (cols : List (ColumnDescriptor × List Int))
    (cc : List (UpdateCall × List Int))
    (h : runColumnsSel t tcm cols = .ok cc) :
    ∀ p ∈ cc, (p : UpdateCall × List Int).1.memoryLevel = some .CPU_LEVEL
      ∧ (∃ e ∈ cols, (e : ColumnDescriptor × List Int).1.columnId = p.1.columnId
          ∧ e.2 = p.2)
      ∧ (p.2 ≠ [] → ∀ q ∈ p.1.stats, (q : Int × ChunkStats).1 ∈ p.2) := by
  induction cols generalizing cc with
  | nil =>
      unfold runColumnsSel at h
      cases h
      intro p hp
      cases hp
  | cons e rest ih =>
      obtain ⟨cd, fids⟩ := e
      unfold runColumnsSel at h
      cases hrc : recomputeColumnMetadata cd tcm (some .CPU_LEVEL) fids
          (fragsFor t cd.columnId) with
      | error er => rw [hrc] at h; exact absurd h (by simp)
      | ok c =>
          rw [hrc] at h
          cases hrs : runColumnsSel t tcm rest with
          | error er => rw [hrs] at h; exact absurd h (by simp)
          | ok cs =>
              rw [hrs] at h
              rw [Except.ok.injEq] at h
              subst h
              intro p hp
              cases c with
              | none =>
                  obtain ⟨h1, ⟨e', he', h2⟩, h3⟩ := ih cs hrs p hp
                  exact ⟨h1, ⟨e', List.mem_cons_of_mem _ he', h2⟩, h3⟩
              | some u =>
                  rcases List.mem_cons.mp hp with hpe | hpr
                  · subst hpe
                    obtain ⟨hcol, hml⟩ := recomputeColumn_shape cd tcm
                      (some .CPU_LEVEL) fids (fragsFor t cd.columnId) u hrc
                    refine ⟨hml, ⟨(cd, fids), List.mem_cons_self _ _,
                      hcol.symm, rfl⟩, ?_⟩
                    intro hne q hq
                    exact recomputeColumn_keys cd tcm (some .CPU_LEVEL) fids
                      (fragsFor t cd.columnId) u hne hrc q hq
                  · obtain ⟨h1, ⟨e', he', h2⟩, h3⟩ := ih cs hrs p hpr
                    exact ⟨h1, ⟨e', List.mem_cons_of_mem _ he', h2⟩, h3⟩

theorem mem_tableEvents (tid : Int) (dOut : DeletedOut)
    (calls : List (Option UpdateCall)) (e : Event)
    (he : e ∈ tableEvents tid dOut calls) :
    (∃ u, dOut.call = some u ∧ e = .updateStats tid u) ∨
    (∃ n, dOut.numRowsCall = some n ∧ e = .setRows tid n) ∨
    (∃ u, some u ∈ calls ∧ e = .updateStats tid u) := by
  unfold tableEvents at he
  rcases List.mem_append.mp he with h1 | h2
  · rcases List.mem_append.mp h1 with h3 | h4
    · left
      cases hc : dOut.call with
      | none => rw [hc] at h3; cases h3
      | some u =>
          rw [hc] at h3
          rcases List.mem_singleton.mp h3 with rfl
          exact ⟨u, rfl, rfl⟩
    · right; left
      cases hn : dOut.numRowsCall with
      | none => rw [hn] at h4; cases h4
      | some n =>
          rw [hn] at h4
          rcases List.mem_singleton.mp h4 with rfl
          exact ⟨n, rfl, rfl⟩
  · right; right
    rcases List.mem_filterMap.mp h2 with ⟨c, hc, hmap⟩
    cases c with
    | none => cases hmap
    | some u =>
        simp only [Option.map, Option.some.injEq] at hmap
        exact ⟨u, hc, hmap.symm⟩

theorem unlockedTables_spec (tables : List TableEnv)
    (cands : List (ColumnDescriptor × List Int)) (tids : List Int)
    (tr : List Event) (cc : List (UpdateCall × List Int))
    (h : unlockedTables tables cands tids = .ok (tr, cc)) :
    (∀ tid, Event.checkpointEv tid ∉ tr)
  ∧ (∀ p ∈ cc, (p : UpdateCall × List Int).1.memoryLevel =
        some MemoryLevel.CPU_LEVEL
      ∧ (∃ e ∈ cands, (e : ColumnDescriptor × List Int).1.columnId =
            p.1.columnId ∧ e.2 = p.2)
      ∧ (p.2 ≠ [] → ∀ q ∈ p.1.stats, (q : Int × ChunkStats).1 ∈ p.2))
  ∧ (∀ tid u, Event.updateStats tid u ∈ tr →
      u.memoryLevel = none ∨ ∃ fids, (u, fids) ∈ cc) := by
  induction tids generalizing tr cc with
  | nil =>
      unfold unlockedTables at h
      cases h
      refine ⟨?_, ?_, ?_⟩
      · intro tid hm
        cases hm
      · intro p hp
        cases hp
      · intro tid u hm
        cases hm
  | cons tid rest ih =>
      unfold unlockedTables at h
      cases hft : findTable tables tid with
      | error e => rw [hft] at h; exact absurd h (by simp)
      | ok t =>
          rw [hft] at h
          dsimp only at h
          cases hdo : recomputeDeletedColumnMetadata t.td t.deletedCd
              (fragsFor t t.deletedCd.columnId) with
          | error e => rw [hdo] at h; exact absurd h (by simp)
          | ok dOut =>
              rw [hdo] at h
              dsimp only at h
              cases hcs : runColumnsSel t dOut.tuple_count_map
                  (colsFor cands tid) with
              | error e => rw [hcs] at h; exact absurd h (by simp)
              | ok cc₁ =>
                  rw [hcs] at h
                  dsimp only at h
                  cases hrest : unlockedTables tables cands rest with
                  | error e => rw [hrest] at h; exact absurd h (by simp)
                  | ok pr =>
                      obtain ⟨tr₂, cc₂⟩ := pr
                      rw [hrest] at h
                      dsimp only at h
                      rw [Except.ok.injEq, Prod.mk.injEq] at h
                      obtain ⟨htr, hcc⟩ := h
                      subst htr
                      subst hcc
                      obtain ⟨ih1, ih2, ih3⟩ := ih tr₂ cc₂ hrest
                      refine ⟨?_, ?_, ?_⟩
                      · intro tid' hm
                        rcases List.mem_append.mp hm with h1 | h2
                        · rcases mem_tableEvents tid dOut _ _ h1 with
                            ⟨u, -, he⟩ | ⟨n, -, he⟩ | ⟨u, -, he⟩ <;> cases he
                        · exact ih1 tid' h2
                      · intro p hp
                        rcases List.mem_append.mp hp with h1 | h2
                        · obtain ⟨h1', ⟨e, he, h2'⟩, h3'⟩ :=
                            runColumnsSel_spec t dOut.tuple_count_map
                              (colsFor cands tid) cc₁ hcs p h1
                          refine ⟨h1', ⟨e, List.mem_of_mem_filter he, h2'⟩, h3'⟩
                        · obtain ⟨h1', ⟨e, he, h2'⟩, h3'⟩ := ih2 p h2
                          exact ⟨h1', ⟨e, he, h2'⟩, h3'⟩
                      · intro tid' u hm
                        rcases List.mem_append.mp hm with h1 | h2
                        · rcases mem_tableEvents tid dOut _ _ h1 with
                            ⟨u', hcall, he⟩ | ⟨n, -, he⟩ | ⟨u', hmem, he⟩
                          · injection he with he1 he2
                            subst he2
                            exact Or.inl (deletedOut_call_level t.td t.deletedCd
                              _ dOut _ hdo hcall)
                          · exact Event.noConfusion he
                          · injection he with he1 he2
                            subst he2
                            rcases List.mem_map.mp hmem with ⟨p, hpmem, hpe⟩
                            simp only [Option.some.injEq] at hpe
                            right
                            refine ⟨p.2, ?_⟩
                            apply List.mem_append_left
                            rw [← hpe]
                            exact hpmem
                        · rcases ih3 tid' u h2 with hml | ⟨fids, hfm⟩
                          · exact Or.inl hml
                          · exact Or.inr ⟨fids, List.mem_append_right _ hfm⟩

/-- Claim C1: for every partition processed by `recomputeColumnMetadata` whose non-null COUNT is nonzero, the `has_nulls` flag written into that partition's `ChunkStats` is true iff the COUNT differs from the live-row count recorded by the deleted-column pass in `tuple_count_map`, falling back to the partition's physical row count when no live count was recorded (the `Option.getD`). -/
theorem recompute_has_nulls_iff_live (cd : ColumnDescriptor)
    (tcm : List (Int × Nat)) (ml : Option MemoryLevel) (fids : List Int)
    (frags : List FragmentData) (u : UpdateCall) (info : FragmentInfo)
    (mn mx cnt : Int)
    (hmem : (⟨info, [.scalar (.i mn), .scalar (.i mx), .scalar (.i cnt)]⟩ :
      FragmentData) ∈ frags)
    (hnodup : (frags.map (fun g => g.info.fragmentId)).Nodup)
    (hsel : fragSelected fids info.fragmentId = true)
    (hphys : info.physicalNumTuples ≠ 0)
    (hint : intClass cd.columnType.type = true)
    (hcnt0 : 0 < cnt) (hcnt64 : cnt < 18446744073709551616)
    (hok : recomputeColumnMetadata cd tcm ml fids frags = .ok (some u)) :
    alookup info.fragmentId u.stats =
      some ⟨.i mn, .i mx,
        decide (cnt.toNat ≠
          (alookup info.fragmentId tcm).getD info.physicalNumTuples)⟩ := by
  unfold recomputeColumnMetadata at hok
  by_cases hv : cd.columnType.is_varlen = true
  · rw [if_pos hv] at hok; exact absurd hok (by simp)
  · rw [if_neg (by simpa using hv)] at hok
    cases hm : runFragments cd tcm fids [] frags with
    | error e => rw [hm] at hok; exact absurd hok (by simp)
    | ok m =>
        rw [hm] at hok
        rw [Except.ok.injEq, Option.some.injEq] at hok
        subst hok
        exact runFragments_lookup_emit cd tcm fids frags [] m _ _ hmem hnodup hsel
          (cb_emit_int cd tcm info mn mx cnt hphys hint hcnt0 hcnt64) rfl hm

/-- Witness for C1: fragment 1 has 10 physical rows, live count 10 recorded, non-null COUNT 7, so `has_nulls` is written as true. -/
theorem recompute_has_nulls_iff_live_witness :
    alookup 1 (⟨7, [(1, ⟨.i 1, .i 5, true⟩)], none⟩ : UpdateCall).stats =
      some ⟨.i 1, .i 5, true⟩ :=
  recompute_has_nulls_iff_live cdIntW [(1, 10)] none []
    [⟨⟨1, 10⟩, [.scalar (.i 1), .scalar (.i 5), .scalar (.i 7)]⟩]
    ⟨7, [(1, ⟨.i 1, .i 5, true⟩)], none⟩ ⟨1, 10⟩ 1 5 7
    (by decide) (by decide) (by decide) (by decide) (by decide) (by decide)
    (by decide) (by decide)

/-- Claim C2: for every non-empty partition, the synthetic `ChunkStats` the deleted-row pass writes for the boolean marker column are (0,0) when the live count L equals the physical count P, (1,1) when L is 0, and (0,1) when 0 < L < P. -/
theorem marker_synthetic_stats (cd : ColumnDescriptor) (info : FragmentInfo)
    (L : Int) (hbool : cd.columnType.type = SQLTypes.kBOOLEAN)
    (hphys : info.physicalNumTuples ≠ 0)
    (hL0 : 0 ≤ L) (hL64 : L < 18446744073709551616) :
    (L.toNat = info.physicalNumTuples →
      compute_deleted_callback cd ⟨info, [.scalar (.i L)]⟩ =
        .ok (some (⟨.i 0, .i 0, false⟩, L.toNat)))
  ∧ (L.toNat = 0 →
      compute_deleted_callback cd ⟨info, [.scalar (.i L)]⟩ =
        .ok (some (⟨.i 1, .i 1, false⟩, L.toNat)))
  ∧ (0 < L.toNat ∧ L.toNat < info.physicalNumTuples →
      compute_deleted_callback cd ⟨info, [.scalar (.i L)]⟩ =
        .ok (some (⟨.i 0, .i 1, false⟩, L.toNat))) := by
  have hic : intClass cd.columnType.type = true := by rw [hbool]; rfl
  have hch := deleted_cb_cases cd info L hic hphys hL0 hL64
  refine ⟨?_, ?_, ?_⟩
  · intro hc
    rw [hch, if_pos hc, if_pos hc]
  · intro hc
    have hne : L.toNat ≠ info.physicalNumTuples := by omega
    rw [hch, if_neg hne, if_neg hne, if_pos hc, if_pos hc]
  · intro hc
    have hne : L.toNat ≠ info.physicalNumTuples := by omega
    have hne0 : L.toNat ≠ 0 := by omega
    rw [hch, if_neg hne, if_neg hne, if_neg hne0, if_neg hne0]

/-- Witness for C2: 7 live of 10 physical rows yields the (0,1) some-deleted stats. -/
theorem marker_synthetic_stats_witness :
    compute_deleted_callback cdDelW ⟨⟨2, 10⟩, [.scalar (.i 7)]⟩ =
      .ok (some (⟨.i 0, .i 1, false⟩, 7)) :=
  (marker_synthetic_stats cdDelW ⟨2, 10⟩ 7 (by decide) (by decide)
    (by decide) (by decide)).2.2 (by decide)

/-- Claim C3: if the physical delete or the checkpoint fails, `vacuumDeletedRows` invokes the epoch restore, the restored epochs equal the pre-call epochs whenever the restore itself does not fail (and a restore failure is swallowed, not propagated), and the surfaced error is exactly the originating failure; on success no restore is invoked. -/
theorem vacuum_rollback (c : VacCatalog) :
    (¬ (c.vacuumOk = true ∧ c.checkpointOk = true) →
      (vacuumDeletedRows c).outcome =
          .error (if c.vacuumOk then VacError.checkpointFailed
                  else VacError.vacuumFailed)
        ∧ (vacuumDeletedRows c).restoreInvoked = true
        ∧ (c.restoreOk = true → (vacuumDeletedRows c).cat.epochs = c.epochs))
  ∧ (c.vacuumOk = true ∧ c.checkpointOk = true →
      (vacuumDeletedRows c).outcome = .ok ()
        ∧ (vacuumDeletedRows c).restoreInvoked = false) := by
  obtain ⟨eps, n, v, k, r⟩ := c
  cases v <;> cases k <;> cases r <;>
    simp [vacuumDeletedRows, catVacuumDeletedRows, catCheckpoint,
      setTableEpochsLogExceptions]

/-- Witness for C3: a checkpoint failure that had already advanced one shard's epoch surfaces `checkpointFailed` and leaves the epochs as recorded before the call. -/
theorem vacuum_rollback_witness :
    (vacuumDeletedRows ⟨[(1, 5), (11, 5)], 1, true, false, true⟩).outcome =
        .error .checkpointFailed ∧
    (vacuumDeletedRows ⟨[(1, 5), (11, 5)], 1, true, false, true⟩).cat.epochs =
        [(1, 5), (11, 5)] :=
  ⟨((vacuum_rollback ⟨[(1, 5), (11, 5)], 1, true, false, true⟩).1
      (by decide)).1,
   ((vacuum_rollback ⟨[(1, 5), (11, 5)], 1, true, false, true⟩).1
      (by decide)).2.2 (by decide)⟩

/-- Counterexample for C4: on a single fragment with 10 physical rows of which 7 are live, the deleted-row pass publishes 10 — the physical count — to `setNumRows`, while the live counts it records sum to 7; the claim that the published total is the sum of live counts fails. -/
theorem published_total_not_live_sum :
    recomputeDeletedColumnMetadata tdW cdDelW [⟨⟨1, 10⟩, [.scalar (.i 7)]⟩] =
      .ok ⟨some ⟨2, [(1, ⟨.i 0, .i 1, false⟩)], none⟩, some 10, [(1, 7)]⟩ ∧
    (10 : Nat) ≠ 7 :=
  ⟨by decide, by decide⟩

/-- Claim C4 (amended): when the marker being processed is the authoritative deleted column, the total the deleted-row pass publishes to `setNumRows` equals the sum over all fragments of the physical row count (`getPhysicalNumTuples`), not the sum of the measured live counts. -/
theorem published_total_is_physical_sum (td : TableDescriptor)
    (cd : ColumnDescriptor) (frags : List FragmentData) (out : DeletedOut)
    (hdel : cd.isDeletedCol = true) (hhas : td.hasDeletedCol = true)
    (h : recomputeDeletedColumnMetadata td cd frags = .ok out) :
    out.numRowsCall =
      some ((frags.map (fun g => g.info.physicalNumTuples)).sum) := by
  unfold recomputeDeletedColumnMetadata at h
  rw [if_pos hhas] at h
  cases hr : runDeletedFragments cd [] [] 0 frags with
  | error e => rw [hr] at h; exact absurd h (by simp)
  | ok trip =>
      obtain ⟨sm, tm, tot⟩ := trip
      rw [hr] at h
      rw [Except.ok.injEq] at h
      subst h
      have := runDeleted_total cd [] [] 0 frags sm tm tot hdel hr
      simp only [Nat.zero_add] at this
      simp [this]

/-- Witness for C4 (amended): the published total on the 10-physical/7-live fragment is 10. -/
theorem published_total_is_physical_sum_witness :
    (⟨some ⟨2, [(1, ⟨.i 0, .i 1, false⟩)], none⟩, some 10, [(1, 7)]⟩ :
      DeletedOut).numRowsCall = some 10 :=
  published_total_is_physical_sum tdW cdDelW [⟨⟨1, 10⟩, [.scalar (.i 7)]⟩]
    ⟨some ⟨2, [(1, ⟨.i 0, .i 1, false⟩)], none⟩, some 10, [(1, 7)]⟩
    (by decide) (by decide) (by decide)

/-- Claim C5: a partition whose non-null COUNT aggregate result is 0 gets no `ChunkStats` entry from `recomputeColumnMetadata` — the all-null case is represented by absence, not by a sentinel entry. -/
theorem count_zero_writes_no_entry (cd : ColumnDescriptor)
    (tcm : List (Int × Nat)) (ml : Option MemoryLevel) (fids : List Int)
    (frags : List FragmentData) (u : UpdateCall) (fd : FragmentData)
    (hmem : fd ∈ frags)
    (hnodup : (frags.map (fun g => g.info.fragmentId)).Nodup)
    (hlen : fd.row.length = 3)
    (hzero : fd.row.get? 2 = some (.scalar (.i 0)))
    (hok : recomputeColumnMetadata cd tcm ml fids frags = .ok (some u)) :
    alookup fd.info.fragmentId u.stats = none := by
  unfold recomputeColumnMetadata at hok
  by_cases hv : cd.columnType.is_varlen = true
  · rw [if_pos hv] at hok; exact absurd hok (by simp)
  · rw [if_neg (by simpa using hv)] at hok
    cases hm : runFragments cd tcm fids [] frags with
    | error e => rw [hm] at hok; exact absurd hok (by simp)
    | ok m =>
        rw [hm] at hok
        rw [Except.ok.injEq, Option.some.injEq] at hok
        subst hok
        exact runFragments_lookup_skip cd tcm fids frags [] m fd hmem hnodup
          (cb_skip_zero_count cd tcm fd (Or.inr ⟨hlen, hzero⟩)) hm

/-- Witness for C5: fragment 1 has COUNT 0 and is absent from the update, while fragment 2 is present. -/
theorem count_zero_writes_no_entry_witness :
    alookup 1 (⟨7, [(2, ⟨.i 1, .i 2, true⟩)], none⟩ : UpdateCall).stats = none :=
  count_zero_writes_no_entry cdIntW [] none []
    [⟨⟨1, 10⟩, [.scalar (.i 3), .scalar (.i 4), .scalar (.i 0)]⟩,
     ⟨⟨2, 10⟩, [.scalar (.i 1), .scalar (.i 2), .scalar (.i 5)]⟩]
    ⟨7, [(2, ⟨.i 1, .i 2, true⟩)], none⟩
    ⟨⟨1, 10⟩, [.scalar (.i 3), .scalar (.i 4), .scalar (.i 0)]⟩
    (by decide) (by decide) (by decide) (by decide) (by decide)

/-- Counterexample for C6: a result row of the wrong shape (here empty) makes the whole recompute pass abort via the `CHECK_EQ` on the row arity — the remaining fragment, which alone yields a successful update, is not processed — contradicting the claim that such a failure is logged and the pass continues with that partition's entry absent. -/
theorem wrong_shape_aborts_pass :
    recomputeColumnMetadata cdIntW [] none []
        [⟨⟨1, 5⟩, []⟩,
         ⟨⟨2, 5⟩, [.scalar (.i 1), .scalar (.i 2), .scalar (.i 5)]⟩] = .error () ∧
    recomputeColumnMetadata cdIntW [] none []
        [⟨⟨2, 5⟩, [.scalar (.i 1), .scalar (.i 2), .scalar (.i 5)]⟩] =
      .ok (some ⟨7, [(2, ⟨.i 1, .i 2, false⟩)], none⟩) :=
  ⟨by decide, by decide⟩

/-- Claim C6 (amended): a result row of the wrong shape or with a mismatched value type trips a fatal `CHECK` that aborts the recompute pass; only a `set_metadata_from_results` failure (a column type outside the supported switch) is logged, leaves the partition's statistics entry absent rather than zeroed, and lets the pass complete. -/
theorem aggregate_failure_behaviour (cd : ColumnDescriptor)
    (tcm : List (Int × Nat)) (ml : Option MemoryLevel) (fids : List Int)
    (frags : List FragmentData) :
    (∀ fd ∈ frags, fragSelected fids fd.info.fragmentId = true →
      fd.info.physicalNumTuples ≠ 0 →
      (fd.row.length ≠ 3 ∨
        ∃ tv, fd.row.get? 2 = some tv ∧ ∀ v : Int, tv ≠ .scalar (.i v)) →
      cd.columnType.is_varlen = false →
      recomputeColumnMetadata cd tcm ml fids frags = .error ())
  ∧ (cd.columnType.is_varlen = false → inSwitch cd.columnType.type = false →
      (∀ g ∈ frags, rowShapeOk g) →
      recomputeColumnMetadata cd tcm ml fids frags =
        .ok (some ⟨cd.columnId, [], ml⟩)) := by
  constructor
  · intro fd hmem hsel hphys hmal hv
    unfold recomputeColumnMetadata
    rw [if_neg (by simp [hv]),
      runFragments_error_mem cd tcm fids frags [] fd hmem hsel
        (cb_error_malformed cd tcm fd hphys hmal)]
  · intro hv hun hshape
    unfold recomputeColumnMetadata
    rw [if_neg (by simp [hv]),
      runFragments_all_skip cd tcm fids frags []
        (fun g hg _ => cb_skip_unsupported cd tcm g hun (hshape g hg))]

/-- Witness for C6 (amended): the two-fragment malformed run aborts, and an interval column's run completes with every entry absent. -/
theorem aggregate_failure_behaviour_witness :
    recomputeColumnMetadata cdIntW [] none []
        [⟨⟨1, 5⟩, []⟩,
         ⟨⟨2, 5⟩, [.scalar (.i 1), .scalar (.i 2), .scalar (.i 5)]⟩] = .error () ∧
    recomputeColumnMetadata cdIntervalW [] none []
        [⟨⟨1, 5⟩, [.scalar (.i 0), .scalar (.i 0), .scalar (.i 3)]⟩] =
      .ok (some ⟨8, [], none⟩) :=
  ⟨(aggregate_failure_behaviour cdIntW [] none []
      [⟨⟨1, 5⟩, []⟩,
       ⟨⟨2, 5⟩, [.scalar (.i 1), .scalar (.i 2), .scalar (.i 5)]⟩]).1
      ⟨⟨1, 5⟩, []⟩ (by decide) (by decide) (by decide)
      (Or.inl (by decide)) (by decide),
   (aggregate_failure_behaviour cdIntervalW [] none []
      [⟨⟨1, 5⟩, [.scalar (.i 0), .scalar (.i 0), .scalar (.i 3)]⟩]).2
      (by decide) (by decide)
      (by intro g hg
          simp only [List.mem_singleton] at hg
          subst hg
          exact Or.inr ⟨rfl, 3, rfl⟩)⟩

/-- Claim C7: the targeted entry point issues no checkpoint; every column-stat update it performs is at the caller-specified `CPU_LEVEL` memory tier, corresponds to a requested (column, fragment set) candidate, and is restricted to the requested fragment ids when that set is non-empty; and every other stats update in its trace is the marker-column call, which carries no single memory level. -/
theorem targeted_recompute_scope (tables : List TableEnv)
    (cands : List (ColumnDescriptor × List Int)) (s : Store)
    (out : Store × List Event × List (UpdateCall × List Int))
    (h : recomputeMetadataUnlocked tables cands s = .ok out) :
    (∀ tid, Event.checkpointEv tid ∉ out.2.1)
  ∧ (∀ p ∈ out.2.2, (p : UpdateCall × List Int).1.memoryLevel =
        some MemoryLevel.CPU_LEVEL
      ∧ (∃ e ∈ cands, (e : ColumnDescriptor × List Int).1.columnId =
            p.1.columnId ∧ e.2 = p.2)
      ∧ (p.2 ≠ [] → ∀ q ∈ p.1.stats, (q : Int × ChunkStats).1 ∈ p.2))
  ∧ (∀ tid u, Event.updateStats tid u ∈ out.2.1 →
      u.memoryLevel = none ∨ ∃ fids, (u, fids) ∈ out.2.2) := by
  unfold recomputeMetadataUnlocked at h
  cases hu : unlockedTables tables cands (tableIdsOf cands) with
  | error e => rw [hu] at h; exact absurd h (by simp)
  | ok pr =>
      obtain ⟨tr, cc⟩ := pr
      rw [hu] at h
      dsimp only at h
      rw [Except.ok.injEq] at h
      subst h
      exact unlockedTables_spec tables cands (tableIdsOf cands) tr cc hu

/-- Witness for C7: the targeted recompute of column 7 restricted to fragment 1 on `envW`. -/
theorem targeted_recompute_scope_witness :
    (∀ tid, Event.checkpointEv tid ∉ trUW)
  ∧ (∀ p ∈ ccUW, (p : UpdateCall × List Int).1.memoryLevel =
        some MemoryLevel.CPU_LEVEL
      ∧ (∃ e ∈ [(cdIntW, [(1 : Int)])],
            (e : ColumnDescriptor × List Int).1.columnId = p.1.columnId
          ∧ e.2 = p.2)
      ∧ (p.2 ≠ [] → ∀ q ∈ p.1.stats, (q : Int × ChunkStats).1 ∈ p.2))
  ∧ (∀ tid u, Event.updateStats tid u ∈ trUW →
      u.memoryLevel = none ∨ ∃ fids, (u, fids) ∈ ccUW) :=
  targeted_recompute_scope envW [(cdIntW, [1])] storeEmpty
    (applyEvents trUW storeEmpty, trUW, ccUW) (by rfl)

/-- Claim C8: running the full recompute a second time on an unchanged environment reproduces exactly the statistics store and event trace of the first run — the pass is idempotent. -/
theorem recompute_idempotent (env : List TableEnv) (s s₁ : Store)
    (tr : List Event) (h : recomputeMetadata env s = .ok (s₁, tr)) :
    recomputeMetadata env s₁ = .ok (s₁, tr) := by
  unfold recomputeMetadata at h ⊢
  cases hf : fullTrace env with
  | error e => rw [hf] at h; exact absurd h (by simp)
  | ok tr0 =>
      rw [hf] at h
      rw [Except.ok.injEq, Prod.mk.injEq] at h
      obtain ⟨hs, htr⟩ := h
      subst htr
      subst hs
      simp [applyEvents_idem]

/-- Witness for C8: rerunning the full recompute of `envW` on the store its first run produced returns that same store and trace. -/
theorem recompute_idempotent_witness :
    recomputeMetadata envW (applyEvents traceW storeEmpty) =
      .ok (applyEvents traceW storeEmpty, traceW) :=
  recompute_idempotent envW storeEmpty (applyEvents traceW storeEmpty) traceW
    (by rfl)

/-- Claim C9: a varlen column is skipped before any statistics work (no update call at all), and a non-varlen column whose type falls into the `default:` case of the switch produces an update with no entries — in both cases with a diagnostic only, never a failure of the recompute call. The same `recomputeColumnMetadata` is invoked by both entry points, so the eligibility check is identical in both. -/
theorem ineligible_column_skipped (cd : ColumnDescriptor)
    (tcm : List (Int × Nat)) (ml : Option MemoryLevel) (fids : List Int)
    (frags : List FragmentData) :
    (cd.columnType.is_varlen = true →
      recomputeColumnMetadata cd tcm ml fids frags = .ok none)
  ∧ (cd.columnType.is_varlen = false → inSwitch cd.columnType.type = false →
      (∀ g ∈ frags, rowShapeOk g) →
      recomputeColumnMetadata cd tcm ml fids frags =
        .ok (some ⟨cd.columnId, [], ml⟩)) := by
  constructor
  · intro hv
    unfold recomputeColumnMetadata
    rw [if_pos hv]
  · intro hv hun hshape
    unfold recomputeColumnMetadata
    rw [if_neg (by simp [hv]),
      runFragments_all_skip cd tcm fids frags []
        (fun g hg _ => cb_skip_unsupported cd tcm g hun (hshape g hg))]

/-- Witness for C9: an array column is skipped outright and an interval column's pass succeeds with no entries written. -/
theorem ineligible_column_skipped_witness :
    recomputeColumnMetadata ⟨1, 9, tiArrayW, false⟩ [] (some .CPU_LEVEL) [] [] =
        .ok none ∧
    recomputeColumnMetadata cdIntervalW [] none []
        [⟨⟨1, 5⟩, [.scalar (.i 0), .scalar (.i 0), .scalar (.i 3)]⟩] =
      .ok (some ⟨8, [], none⟩) :=
  ⟨(ineligible_column_skipped ⟨1, 9, tiArrayW, false⟩ [] (some .CPU_LEVEL) [] []).1
      (by decide),
   (ineligible_column_skipped cdIntervalW [] none []
      [⟨⟨1, 5⟩, [.scalar (.i 0), .scalar (.i 0), .scalar (.i 3)]⟩]).2
      (by decide) (by decide)
      (by intro g hg
          simp only [List.mem_singleton] at hg
          subst hg
          exact Or.inr ⟨rfl, 3, rfl⟩)⟩

/-- Claim C10: every synthetic `ChunkStats` entry the deleted-row pass writes for the marker column has `has_nulls = false`, regardless of the measured live count. -/
theorem marker_stats_never_null (td : TableDescriptor) (cd : ColumnDescriptor)
    (frags : List FragmentData) (out : DeletedOut) (u : UpdateCall)
    (p : Int × ChunkStats)
    (h : recomputeDeletedColumnMetadata td cd frags = .ok out)
    (hu : out.call = some u) (hp : p ∈ u.stats) :
    p.2.has_nulls = false := by
  unfold recomputeDeletedColumnMetadata at h
  by_cases hd : td.hasDeletedCol = true
  · rw [if_pos hd] at h
    cases hr : runDeletedFragments cd [] [] 0 frags with
    | error e => rw [hr] at h; exact absurd h (by simp)
    | ok trip =>
        obtain ⟨sm, tm, tot⟩ := trip
        rw [hr] at h
        rw [Except.ok.injEq] at h
        subst h
        simp only [Option.some.injEq] at hu
        subst hu
        exact runDeleted_has_nulls cd [] [] 0 frags sm tm tot
          (fun q hq => by cases hq) hr p hp
  · rw [if_neg hd] at h
    rw [Except.ok.injEq] at h
    subst h
    exact absurd hu (by simp)

/-- Witness for C10: the (0,1) marker entry of the 7-live fragment reports no nulls. -/
theorem marker_stats_never_null_witness :
    ((1, (⟨.i 0, .i 1, false⟩ : ChunkStats)) : Int × ChunkStats).2.has_nulls =
      false :=
  marker_stats_never_null tdW cdDelW [⟨⟨1, 10⟩, [.scalar (.i 7)]⟩]
    ⟨some ⟨2, [(1, ⟨.i 0, .i 1, false⟩)], none⟩, some 10, [(1, 7)]⟩
    ⟨2, [(1, ⟨.i 0, .i 1, false⟩)], none⟩ (1, ⟨.i 0, .i 1, false⟩)
    (by decide) (by decide) (by decide)
